import Mathlib

/-!
Verification development for the Person Resolution & Response Assembly
Pipeline of the gemini-sheets-bot repository.

Shallow embedding conventions:
* Python strings are embedded as `List Char` (`Str`).  Python truthiness of an
  optional string (`if s:`) is `optTruthy` (false for `None` and for `""`).
* Python floats that hold similarity ratios / confidences are embedded as
  exact rationals (`ℚ`), built with `mkRat` so that they evaluate inside the
  kernel.  Float rounding is not modelled.
* `str.lower()` is `pyLower` (ASCII case folding, `Char.toLower`),
  `str.strip()` is `pyStrip` (whitespace trimming on both ends), `\d` in the
  phone regex is `Char.isDigit`.  The source is only exercised on phone
  digits and names here, for which the ASCII embedding is faithful.
* I/O (the Sheets fetch, the Gemini call) is passed in as explicit data: the
  fetch outcome is an `Except` value, the generation outcome is a `GenRaw`
  value.  `GenRaw.fail` covers a transport error, malformed JSON, and
  payloads rejected by Pydantic validation — `app/llm/gemini.py` treats all
  of these identically (one `except Exception` handler).  `GenRaw.ok d`
  covers the case where `json.loads` and `ChatResponse.model_validate`
  succeed on `d`.
-/

abbrev Str := List Char

/-- Python truthiness of `Optional[str]`: `None` and `""` are falsy. -/
def optTruthy : Option Str → Bool
  | none => false
  | some s => !s.isEmpty

/-- `str.lower()` (ASCII case folding). -/
def pyLower (s : Str) : Str := s.map Char.toLower

/-- `str.strip()`: drop whitespace from both ends. -/
def pyStrip (s : Str) : Str :=
  ((s.dropWhile Char.isWhitespace).reverse.dropWhile Char.isWhitespace).reverse

/-!
## difflib.SequenceMatcher (no junk)

`difflib.SequenceMatcher(None, a, b).ratio()` for short inputs (autojunk
applies only from 200 characters, and the code compares person names): with
no junk, `find_longest_match` returns the longest common substring of the
two ranges, ties broken by the smallest start in `a`, then the smallest
start in `b` (the post-loop junk-extension `while` loops are no-ops when no
element is junk).  `get_matching_blocks` recurses to the left and to the
right of that block; `ratio` is `2*M/T` where `M` is the total size of all
matching blocks and `T` the sum of the lengths (`1.0` when `T = 0`).
-/

/-- Length of the common prefix of two strings. -/
def runLen : Str → Str → Nat
  | a :: as, b :: bs => if a = b then runLen as bs + 1 else 0
  | _, _ => 0

/-- `find_longest_match` over the whole strings: the `(i, j, size)` of the
longest common substring, ties kept at the lexicographically smallest
`(i, j)` (strict `<` in the fold keeps the first maximum). -/
def flm (a b : Str) : Nat × Nat × Nat :=
  (List.range a.length).foldl (fun best i =>
    (List.range b.length).foldl (fun best j =>
      let k := runLen (a.drop i) (b.drop j)
      if best.2.2 < k then (i, j, k) else best) best) (0, 0, 0)

/-- Total size of all matching blocks (`get_matching_blocks` recursion),
with a structural fuel argument.  Each recursive call strictly decreases
the length of the first string (`flm` returns `1 ≤ k` and `i + k ≤ a.length`
in the recursive branch), so fuel `a.length + 1` suffices; `msumF_fuel` below
proves the fuel irrelevant. -/
def msumF : Nat → Str → Str → Nat
  | 0, _, _ => 0
  | fuel + 1, a, b =>
    let t := flm a b
    if t.2.2 = 0 then 0
    else
      msumF fuel (a.take t.1) (b.take t.2.1) + t.2.2 +
        msumF fuel (a.drop (t.1 + t.2.2)) (b.drop (t.2.1 + t.2.2))

def msum (a b : Str) : Nat := msumF (a.length + 1) a b

/-- `SequenceMatcher.ratio()` as an exact rational. -/
def ratio (a b : Str) : ℚ :=
  if a.length + b.length = 0 then mkRat 1 1
  else mkRat (Int.ofNat (2 * msum a b)) (a.length + b.length)

/-- The 0.85 similarity threshold of `PersonFinder._fuzzy_match`. -/
def defaultThreshold : ℚ := mkRat 85 100

/-!
## PersonFinder (app/people/find.py)
-/

/-- One parsed row of the People sheet (all values are cell strings; a key
missing from the dict behaves like `""` under the `.get(…, '')` reads). -/
structure Record where
  person_id : Str
  full_name : Str
  preferred_name : Str
  school : Str
  department : Str
  email : Str
  phone : Str
  locale : Str
  profile_doc_id : Str
  profile_text : Str
  last_updated : Str
deriving DecidableEq

/-- The characters kept by `re.sub(r'[^\d+]', '', phone)`. -/
def phonePred (c : Char) : Bool := c.isDigit || c == '+'

def startsPlus : Str → Bool
  | c :: _ => c = '+'
  | [] => false

def starts90 : Str → Bool
  | c :: d :: _ => c = '9' && d = '0'
  | _ => false

def starts0 : Str → Bool
  | c :: _ => c = '0'
  | [] => false

/-- `PersonFinder._normalize_phone`. -/
def _normalize_phone (phone : Str) : Str :=
  if phone = [] then []
  else
    let n := phone.filter phonePred
    if startsPlus n then n
    else if starts90 n then '+' :: n
    else if starts0 n then '+' :: '9' :: '0' :: n.tail
    else '+' :: n

/-- `PersonFinder._fuzzy_match` — note that the emptiness test is on the raw
inputs but the ratio is taken on the lowercased, stripped inputs. -/
def _fuzzy_match (text1 text2 : Str) (threshold : ℚ) : Bool :=
  if text1 = [] || text2 = [] then false
  else decide (threshold ≤ ratio (pyStrip (pyLower text1)) (pyStrip (pyLower text2)))

/-- `PersonFinder.find_by_phone`: first record with the same normalized
phone. -/
def find_by_phone (people : List Record) (phone : Str) : Option Record :=
  if phone = [] then none
  else
    let normalized_phone := _normalize_phone phone
    people.find? fun p => decide (_normalize_phone p.phone = normalized_phone)

/-- The body of the `find_by_name` loop for one record: the full-name
candidate, then the preferred-name candidate, each gated by `_fuzzy_match`
(lowered **and stripped**) but scored by the lowered, **unstripped** ratio,
updating on strict improvement. -/
def fbnStep (name : Str) (acc : Option Record × ℚ) (p : Record) :
    Option Record × ℚ :=
  let acc1 :=
    if p.full_name ≠ [] ∧ _fuzzy_match name p.full_name defaultThreshold = true then
      let r := ratio (pyLower name) (pyLower p.full_name)
      if acc.2 < r then (some p, r) else acc
    else acc
  if p.preferred_name ≠ [] ∧ _fuzzy_match name p.preferred_name defaultThreshold = true then
    let r := ratio (pyLower name) (pyLower p.preferred_name)
    if acc1.2 < r then (some p, r) else acc1
  else acc1

def fbnAux (name : Str) : List Record → Option Record × ℚ → Option Record × ℚ
  | [], acc => acc
  | p :: rest, acc => fbnAux name rest (fbnStep name acc p)

/-- `PersonFinder.find_by_name` (`best_match` starts as `None`,
`best_ratio` as `0.0`). -/
def find_by_name (people : List Record) (name : Str) : Option Record :=
  if name = [] then none
  else (fbnAux name people (none, mkRat 0 1)).1

/-- `PersonFinder.find_person`: phone first, then name. -/
def find_person (people : List Record) (user_phone user_name : Option Str) :
    Option Record :=
  match (if optTruthy user_phone then find_by_phone people (user_phone.getD []) else none) with
  | some p => some p
  | none =>
      if optTruthy user_name then find_by_name people (user_name.getD []) else none

/-- The flattened facts projection (`PersonFinder.build_facts`). -/
structure Facts where
  person_id : Str
  full_name : Str
  preferred_name : Str
  school : Str
  department : Str
  email : Str
  phone : Str
  locale : Str
  profile_text : Str
deriving DecidableEq

def build_facts (p : Record) : Facts :=
  ⟨p.person_id, p.full_name, p.preferred_name, p.school, p.department,
   p.email, p.phone, p.locale, p.profile_text⟩

/-!
## Response models (app/models/response.py) and the Gemini client
(app/llm/gemini.py)
-/

/-- `Reference(source: str, person_id: Optional[str])`. -/
structure Reference where
  source : Str
  person_id : Option Str
deriving DecidableEq

/-- The metadata dictionary, modelled as the fixed set of keys the pipeline
ever reads or writes (`locale_used`, `fallback`, `person_not_found`,
`request_id`, `timing_ms`, `match`).  `request_id` and `timing_ms` carry
request-unique / wall-clock values irrelevant to the claims, so only their
presence is modelled. -/
structure Meta where
  locale_used : Option Str := none
  fallback : Bool := false
  person_not_found : Bool := false
  request_id_set : Bool := false
  timing_set : Bool := false
  matchTag : Option Str := none
deriving DecidableEq

/-- `ChatResponse` (Pydantic). -/
structure ChatResponse where
  answer_text : Str
  intent : Str
  confidence : ℚ
  references : List Reference
  meta : Option Meta
deriving DecidableEq

/-- `ErrorResponse` (Pydantic). -/
structure ErrorResponse where
  answer_text : Str
  intent : Str
  confidence : ℚ
  references : List Reference
deriving DecidableEq

def apologyText : Str :=
  "Şu an teknik bir sorun oluştu. Lütfen daha sonra tekrar dener misiniz?".toList

def peopleSource : Str := "People".toList

def intentGenel : Str := "genel".toList

/-- `GeminiClient._fallback`: apology text, intent `"genel"`, confidence
`0.0`, a People reference only when the passed `person_id` is truthy. -/
def _fallback (locale : Str) (person_id : Option Str) : ChatResponse :=
  { answer_text := apologyText
    intent := intentGenel
    confidence := mkRat 0 1
    references :=
      if optTruthy person_id then [⟨peopleSource, person_id⟩] else []
    meta := some { locale_used := some locale, fallback := true } }

/-- The parsed JSON payload of a successful generation call, after
`json.loads` and before the reference / meta repair.  `references = none`
models a missing or `null` key; `model_validate` succeeding is part of
`GenRaw.ok`. -/
structure GenData where
  answer_text : Str
  intent : Str
  confidence : ℚ
  references : Option (List Reference)
  meta : Option Meta
deriving DecidableEq

/-- Outcome of the raw Gemini call: transport error / bad JSON / invalid
schema (`fail`), empty text (`empty`), or a parsed, validated payload. -/
inductive GenRaw where
  | fail
  | empty
  | ok (data : GenData)
deriving DecidableEq

/-- Python truthiness of `data.get("references")`: missing, `null` or `[]`. -/
def refsFalsy : Option (List Reference) → Bool
  | none => true
  | some [] => true
  | some (_ :: _) => false

/-- `GeminiClient.generate_response` (the `message` and `profile_text`
arguments only shape the prompt, which is part of the collapsed `GenRaw`
oracle).  On the ok path: inject `(People, facts.person_id)` when the
payload has no references, then default `meta.locale_used` to the call's
locale. -/
def generate_response (facts : Facts) (locale : Str) (raw : GenRaw) :
    ChatResponse :=
  match raw with
  | .fail => _fallback locale (some facts.person_id)
  | .empty => _fallback locale (some facts.person_id)
  | .ok d =>
      let refs :=
        if refsFalsy d.references then [⟨peopleSource, some facts.person_id⟩]
        else d.references.getD []
      let m0 := d.meta.getD {}
      let m := if m0.locale_used = none then { m0 with locale_used := some locale } else m0
      { answer_text := d.answer_text
        intent := d.intent
        confidence := d.confidence
        references := refs
        meta := some m }

/-!
## Chat endpoint (app/routes/chat.py)
-/

structure UserInfo where
  name : Option Str
  phone : Option Str
  locale : Option Str
deriving DecidableEq

structure ChatRequest where
  message : Str
  user : Option UserInfo
deriving DecidableEq

/-- Outcome of one request: a normal `ChatResponse`, or the HTTP-500
`JSONResponse` produced by the outermost `except` handler. -/
inductive ChatOutcome where
  | ok (resp : ChatResponse)
  | httpError (err : ErrorResponse)
deriving DecidableEq

def notFoundPhoneMsg : Str :=
  "Numaranızla eşleşen kayıt bulamadım; ad-soyad ve okul/bölüm bilgisini paylaşır mısınız?".toList

def notFoundNoPhoneMsg : Str :=
  "Size yardımcı olabilmem için ad-soyad ve okul/bölüm bilgisini paylaşır mısınız?".toList

/-- `create_not_found_response` (the `user_name` argument is unused by the
source as well). -/
def create_not_found_response (defaultLocale : Str) (user_phone : Option Str)
    (_user_name : Option Str) : ChatResponse :=
  { answer_text := if optTruthy user_phone then notFoundPhoneMsg else notFoundNoPhoneMsg
    intent := intentGenel
    confidence := mkRat 3 10
    references := []
    meta := some { locale_used := some defaultLocale, person_not_found := true } }

def create_error_response : ErrorResponse :=
  ⟨apologyText, intentGenel, mkRat 0 1, []⟩

def reqPhone (req : ChatRequest) : Option Str :=
  match req.user with
  | some u => u.phone
  | none => none

def reqName0 (req : ChatRequest) : Option Str :=
  match req.user with
  | some u => u.name
  | none => none

def reqLocale (req : ChatRequest) : Option Str :=
  match req.user with
  | some u => u.locale
  | none => none

/-- The effective user name (`if not user_name: user_name =
finder.extract_name_from_message(request.message)`).  The regex extraction
itself is request-constant data, passed in as the `extracted` oracle. -/
def effName (req : ChatRequest) (extracted : Option Str) : Option Str :=
  if optTruthy (reqName0 req) then reqName0 req else extracted

/-- `locale = user_locale or facts.get("locale") or settings.default_locale`. -/
def chatLocale (defaultLocale : Str) (req : ChatRequest) (p : Record) : Str :=
  if optTruthy (reqLocale req) then (reqLocale req).getD []
  else if (build_facts p).locale ≠ [] then (build_facts p).locale
  else defaultLocale

/-- `chat_endpoint`, on a successful People fetch (a fetch failure is the
only exception source in this model and is handled in `chat_result`).
Returns the outcome together with the number of generation calls made. -/
def chat_endpoint (defaultLocale : Str) (people : List Record)
    (req : ChatRequest) (extracted : Option Str) (raw : GenRaw) :
    ChatOutcome × Nat :=
  let user_phone := reqPhone req
  let user_name := effName req extracted
  match find_person people user_phone user_name with
  | none => (.ok (create_not_found_response defaultLocale user_phone user_name), 0)
  | some person =>
      let facts := build_facts person
      let locale := chatLocale defaultLocale req person
      let response := generate_response facts locale raw
      let response :=
        if facts.person_id ≠ [] then
          if response.references.any
              (fun r => r.source == peopleSource && r.person_id == some facts.person_id) then
            response
          else
            { response with
                references := response.references ++ [⟨peopleSource, some facts.person_id⟩] }
        else response
      let match_method :=
        if optTruthy user_phone then "phone".toList
        else if optTruthy user_name then "name".toList
        else "none".toList
      let base := response.meta.getD {}
      let lu :=
        match response.meta with
        | some m => m.locale_used.getD locale
        | none => locale
      let newMeta :=
        { base with
            locale_used := some lu
            request_id_set := true
            timing_set := true
            matchTag := some match_method }
      (.ok { response with meta := some newMeta }, 1)

/-- The whole request handler including the outermost `except` boundary:
a Sheets fetch failure is the only raising step in this model, and becomes
the generic 500 error response. -/
def chat_result (defaultLocale : Str) (fetched : Except Unit (List Record))
    (req : ChatRequest) (extracted : Option Str) (raw : GenRaw) :
    ChatOutcome × Nat :=
  match fetched with
  | .error _ => (.httpError create_error_response, 0)
  | .ok people => chat_endpoint defaultLocale people req extracted raw

def outcomeRefs (o : ChatOutcome × Nat) : List Reference :=
  match o.1 with
  | .ok r => r.references
  | .httpError _ => []

def outcomeIntent (o : ChatOutcome × Nat) : Option Str :=
  match o.1 with
  | .ok r => some r.intent
  | .httpError _ => none

def outcomeMatchTag (o : ChatOutcome × Nat) : Option Str :=
  match o.1 with
  | .ok r =>
      match r.meta with
      | some m => m.matchTag
      | none => none
  | .httpError _ => none

/-!
## Sheets client with TTL cache (app/sheets/client.py)

`TTLCache` semantics for the single `"people_data"` key: an entry written
at time `t` with time-to-live `ttl` is present at `now` iff `now < t + ttl`.
The remote read (`worksheet.get`) is passed in as an `Except` value; the
cells of each row are `Str`s.
-/

/-- Parse one sheet row: rows shorter than the 11 fixed headers are
skipped; otherwise the first 11 cells populate the `Record` fields in
header order. -/
def parseRow (row : List Str) : Option Record :=
  if 11 ≤ row.length then
    some ⟨row.getD 0 [], row.getD 1 [], row.getD 2 [], row.getD 3 [],
          row.getD 4 [], row.getD 5 [], row.getD 6 [], row.getD 7 [],
          row.getD 8 [], row.getD 9 [], row.getD 10 []⟩
  else none

/-- `SheetsClient.get_people_data`, modelled over the explicit cache entry
`(data, fetchedAt)?`, the current time, the TTL, and the fetch outcome.
Returns `(result, new cache entry, number of remote fetches performed)`.
Note the `if not values: return []` early return happens **before** the
`self.cache[cache_key] = people_data` line, so an empty fetch is not
cached. -/
def get_people_data (entry : Option (List Record × Nat)) (now ttl : Nat)
    (fetch : Except Unit (List (List Str))) :
    Except Unit (List Record) × Option (List Record × Nat) × Nat :=
  let fetchPath : Except Unit (List Record) × Option (List Record × Nat) × Nat :=
    match fetch with
    | .error e => (.error e, entry, 1)
    | .ok values =>
        if values = [] then (.ok [], entry, 1)
        else
          let people_data := values.filterMap parseRow
          (.ok people_data, some (people_data, now), 1)
  match entry with
  | some (d, t) => if now < t + ttl then (.ok d, entry, 0) else fetchPath
  | none => fetchPath

/-- A cache miss: no entry, or the entry older than the TTL. -/
def cacheMiss (entry : Option (List Record × Nat)) (now ttl : Nat) : Prop :=
  match entry with
  | none => True
  | some (_, t) => ¬ now < t + ttl

instance : ∀ entry now ttl, Decidable (cacheMiss entry now ttl) := by
  intro entry now ttl
  unfold cacheMiss
  match entry with
  | none => exact inferInstanceAs (Decidable True)
  | some (_, t) => exact inferInstanceAs (Decidable (¬ _ < _))

/-!
## Spec-side name matching (second definition, for refinement claim C5)

Modelled from the spec's words (§4.2–§4.3): `ratio` is taken on case-folded
**and trimmed** inputs; for every record the better of
`ratio(rawName, full_name)` and `ratio(rawName, preferred_name)` is
computed; the running maximum is tracked (strict improvement, so ties keep
the first-seen record); the record achieving the maximum is returned iff
the maximum is ≥ 0.85.
-/

def specRatio (a b : Str) : ℚ :=
  ratio (pyStrip (pyLower a)) (pyStrip (pyLower b))

def specStep (name : Str) (acc : Option Record × ℚ) (p : Record) :
    Option Record × ℚ :=
  let m := max (specRatio name p.full_name) (specRatio name p.preferred_name)
  if acc.2 < m then (some p, m) else acc

def specAux (name : Str) : List Record → Option Record × ℚ → Option Record × ℚ
  | [], acc => acc
  | p :: rest, acc => specAux name rest (specStep name acc p)

def specFindByName (people : List Record) (name : Str) : Option Record :=
  let acc := specAux name people (none, mkRat 0 1)
  if defaultThreshold ≤ acc.2 then acc.1 else none

/-- A string unchanged by trimming after case folding (no leading or
trailing whitespace). -/
def trimFixed (s : Str) : Prop := pyStrip (pyLower s) = pyLower s

instance (s : Str) : Decidable (trimFixed s) :=
  inferInstanceAs (Decidable (pyStrip (pyLower s) = pyLower s))

/-!
## Concrete inputs used by the witnesses and counterexamples
-/

/-- Build a record with the fields the claims exercise; remaining cells
empty. -/
def mkRec (pid fn ph : Str) : Record :=
  ⟨pid, fn, [], [], [], [], ph, [], [], [], []⟩

/-- A sheet row of 11 empty cells (accepted by `parseRow`). -/
def wRow : List Str := List.replicate 11 []

/-- C5: record whose full name has no trailing whitespace. -/
def ceRecA : Record := mkRec "A".toList "abcd".toList []

/-- C5: record whose stored full name carries a trailing space. -/
def ceRecB : Record := mkRec "B".toList "abcd ".toList []

/-- C5 witness record. -/
def wRecAli : Record := mkRec "w".toList "ali".toList []

/-- C6: the phone-matching record. -/
def phRecA : Record := mkRec "idA".toList "ann".toList "1".toList

/-- C6: the name-matching record. -/
def nmRecB : Record := mkRec "idB".toList "bob".toList "2".toList

/-- C1/C3: resolvable by phone, with an **empty** person_id. -/
def c1Rec : Record := mkRec [] "eve".toList "5".toList

def c1Req : ChatRequest := ⟨"hi".toList, some ⟨none, some "5".toList, none⟩⟩

/-- C1: generation succeeded with one reference to another source. -/
def c1Raw : GenRaw :=
  .ok ⟨"a".toList, "bilgi".toList, mkRat 1 1, some [⟨"Other".toList, some "x".toList⟩], none⟩

/-- C2/C3 witness: resolvable by phone, person_id `"p"`. -/
def c2Rec : Record := mkRec "p".toList "eve".toList "5".toList

/-- C2: generation succeeded with the same People reference twice. -/
def c2Raw : GenRaw :=
  .ok ⟨"a".toList, "bilgi".toList, mkRat 1 1,
      some [⟨peopleSource, some "p".toList⟩, ⟨peopleSource, some "p".toList⟩], none⟩

/-- C9: non-empty, digit-free stored phone that nevertheless does not
normalize to `"+"` (two `'+'` characters). -/
def c9Rec1 : Record := mkRec "r1".toList [] "++".toList

/-- C9: digit-free stored phone that does normalize to `"+"`. -/
def c9Rec2 : Record := mkRec "r2".toList [] "-".toList

/-- C7: request without any user block. -/
def c7Req : ChatRequest := ⟨"hi".toList, none⟩

/-- C10: record found by name although the request carries a phone. -/
def c10Rec : Record := mkRec "idC".toList "bob".toList "1".toList

/-- C10: request with a phone that matches nothing and a name that does. -/
def c10Req : ChatRequest :=
  ⟨"hi".toList, some ⟨some "bob".toList, some "9".toList, none⟩⟩

/-!
# Theorems

## Shared helper lemmas
-/

theorem optTruthy_some_iff (s : Str) : optTruthy (some s) = true ↔ s ≠ [] := by
  cases s <;> simp [optTruthy]

theorem foldl_const {α : Type} (l : List α) (init : Nat × Nat × Nat) :
    l.foldl (fun b _ => b) init = init := by
  induction l generalizing init with
  | nil => rfl
  | cons x xs ih => exact ih init

theorem flm_nil_right (a : Str) : flm a [] = (0, 0, 0) := by
  unfold flm
  simp only [List.length_nil, List.range_zero, List.foldl_nil]
  exact foldl_const _ _

theorem msumF_nil_right (f : Nat) (a : Str) : msumF f a [] = 0 := by
  cases f with
  | zero => rfl
  | succ g => simp [msumF, flm_nil_right]

theorem ratio_nil_right (a : Str) (ha : a ≠ []) : ratio a [] = 0 := by
  unfold ratio msum
  have hlen : a.length + ([] : Str).length ≠ 0 := by
    simpa using fun h => ha (List.length_eq_zero.mp h)
  rw [if_neg hlen, msumF_nil_right]
  simp

theorem defaultThreshold_pos : (0 : ℚ) < defaultThreshold := by
  have : defaultThreshold = mkRat 85 100 := rfl
  rw [this, Rat.mkRat_eq_divInt, Rat.divInt_eq_div]
  norm_num

theorem mkRat_zero_one : mkRat 0 1 = (0 : ℚ) := by simp

/-- Idempotence core: for non-empty input the result starts with `'+'` and
every character survives the phone filter. -/
theorem norm_shape (x : Str) (hx : x ≠ []) :
    ∃ t : Str, _normalize_phone x = '+' :: t ∧
      ('+' :: t).filter phonePred = '+' :: t := by
  unfold _normalize_phone
  rw [if_neg hx]
  have hfix : (x.filter phonePred).filter phonePred = x.filter phonePred :=
    List.filter_eq_self.mpr fun a ha => (List.mem_filter.mp ha).2
  have hplus : phonePred '+' = true := by decide
  cases hn : x.filter phonePred with
  | nil =>
      refine ⟨[], ?_, by simp [hplus]⟩
      simp [startsPlus, starts90, starts0]
  | cons c t =>
      rw [hn] at hfix
      by_cases hc : c = '+'
      · subst hc
        refine ⟨t, ?_, hfix⟩
        simp [startsPlus]
      · have hsp : startsPlus (c :: t) = false := by simp [startsPlus, hc]
        simp only [hsp, Bool.false_eq_true, if_false]
        have hcp : phonePred c = true := by
          have : c ∈ x.filter phonePred := by rw [hn]; exact List.mem_cons_self c t
          exact (List.mem_filter.mp this).2
        by_cases h90 : starts90 (c :: t) = true
        · rw [if_pos h90]
          exact ⟨c :: t, rfl, by rw [List.filter_cons_of_pos hplus, hfix]⟩
        · rw [if_neg (by simpa using h90)]
          by_cases h0 : starts0 (c :: t) = true
          · rw [if_pos h0]
            have hc0 : c = '0' := by simpa [starts0] using h0
            subst hc0
            have htfix : t.filter phonePred = t := by
              have h2 := hfix
              rw [List.filter_cons_of_pos hcp] at h2
              injection h2
            refine ⟨'9' :: '0' :: (('0' : Char) :: t).tail, rfl, ?_⟩
            simp only [List.tail_cons]
            rw [List.filter_cons_of_pos hplus,
              List.filter_cons_of_pos (by decide : phonePred '9' = true),
              List.filter_cons_of_pos (by decide : phonePred '0' = true), htfix]
          · rw [if_neg (by simpa using h0)]
            exact ⟨c :: t, rfl, by rw [List.filter_cons_of_pos hplus, hfix]⟩

/-- Claim C8: phone normalization is idempotent —
`normalize(normalize(x)) = normalize(x)` for every input string, including
interior `'+'` characters, digit-free inputs, and the empty string. -/
theorem claim_C8_normalize_idempotent (x : Str) :
    _normalize_phone (_normalize_phone x) = _normalize_phone x := by
  by_cases hx : x = []
  · subst hx; rfl
  · obtain ⟨t, hshape, hfix⟩ := norm_shape x hx
    rw [hshape]
    unfold _normalize_phone
    rw [if_neg (List.cons_ne_nil '+' t)]
    simp only [hfix]
    simp [startsPlus]

theorem sanity_normalize_vectors :
    _normalize_phone "05551234567".toList = "+905551234567".toList ∧
    _normalize_phone "+905551234567".toList = "+905551234567".toList ∧
    _normalize_phone "905551234567".toList = "+905551234567".toList ∧
    _normalize_phone [] = [] ∧
    _normalize_phone "-".toList = "+".toList := by decide

/-- For a non-empty input with no digits and no `'+'`, the filter drops
everything and the final branch yields `"+"`. -/
theorem norm_plus (x : Str) (hx : x ≠ []) (h : ∀ c ∈ x, ¬ c.isDigit ∧ c ≠ '+') :
    _normalize_phone x = ['+'] := by
  unfold _normalize_phone
  rw [if_neg hx]
  have hfil : x.filter phonePred = [] := by
    rw [List.filter_eq_nil_iff]
    intro a ha
    simp only [phonePred, Bool.or_eq_true, beq_iff_eq]
    rintro (hd | hp)
    · exact (h a ha).1 hd
    · exact (h a ha).2 hp
  simp [hfil, startsPlus, starts90, starts0]

/-- Characterization of `_normalize_phone s = "+"` through the filtered
string. -/
theorem norm_eq_plus_iff (s : Str) :
    _normalize_phone s = ['+'] ↔
      s ≠ [] ∧ (s.filter phonePred = [] ∨ s.filter phonePred = ['+']) := by
  by_cases hs : s = []
  · subst hs
    simp [_normalize_phone]
  · unfold _normalize_phone
    rw [if_neg hs]
    cases hn : s.filter phonePred with
    | nil => simp [startsPlus, starts90, starts0, hs]
    | cons c t =>
        by_cases hc : c = '+'
        · subst hc
          simp [startsPlus, hs]
        · have hsp : startsPlus (c :: t) = false := by simp [startsPlus, hc]
          simp only [hsp, Bool.false_eq_true, if_false]
          by_cases h90 : starts90 (c :: t) = true
          · rw [if_pos h90]
            simp [hs, hc]
          · rw [if_neg (by simpa using h90)]
            by_cases h0 : starts0 (c :: t) = true
            · rw [if_pos h0]
              simp [hs, hc]
            · rw [if_neg (by simpa using h0)]
              simp [hs, hc]

/-- The filtered string is empty or exactly `"+"` iff the original is
digit-free with at most one `'+'`. -/
theorem filter_phone_iff (s : Str) :
    (s.filter phonePred = [] ∨ s.filter phonePred = ['+']) ↔
      ((∀ c ∈ s, ¬ c.isDigit) ∧ s.count '+' ≤ 1) := by
  constructor
  · intro h
    have hdig : ∀ c ∈ s, ¬ c.isDigit := by
      intro c hc hd
      have hmem : c ∈ s.filter phonePred :=
        List.mem_filter.mpr ⟨hc, by simp [phonePred, hd]⟩
      rcases h with h | h
      · rw [h] at hmem
        exact absurd hmem (List.not_mem_nil c)
      · rw [h] at hmem
        have hcp : c = '+' := by simpa using hmem
        rw [hcp] at hd
        exact absurd hd (by decide)
    refine ⟨hdig, ?_⟩
    have hcnt : (s.filter phonePred).count '+' = s.count '+' :=
      List.count_filter (by decide : phonePred '+' = true)
    rcases h with h | h <;> rw [h] at hcnt <;> simp at hcnt <;> omega
  · rintro ⟨hdig, hcnt⟩
    have hfeq : s.filter phonePred = s.filter (· == '+') := by
      apply List.filter_congr
      intro a ha
      have : a.isDigit = false := Bool.not_eq_true _ ▸ (hdig a ha)
      simp [phonePred, this]
    rw [hfeq, List.filter_beq]
    rcases Nat.le_one_iff_eq_zero_or_eq_one.mp hcnt with h | h <;> simp [h]

theorem find?_pointwise {α : Type} (l : List α) (p q : α → Bool)
    (h : ∀ a ∈ l, p a = q a) : l.find? p = l.find? q := by
  induction l with
  | nil => rfl
  | cons a as ih =>
      have ha := h a (List.mem_cons_self a as)
      cases hpa : p a with
      | true => rw [List.find?_cons_of_pos as hpa, List.find?_cons_of_pos as (ha ▸ hpa)]
      | false =>
          rw [List.find?_cons_of_neg as (by simp [hpa]),
            List.find?_cons_of_neg as (by simp [← ha, hpa]),
            ih fun b hb => h b (List.mem_cons_of_mem a hb)]

/-- Claim C9 (corrected): every non-empty digit-free, plus-free input
normalizes to `"+"` (hence any two of them normalize alike), and
`find_by_phone` with such a query returns the first record whose stored
phone is non-empty, digit-free **and contains at most one `'+'`** — not
simply the first non-empty digit-free phone as stated. -/
theorem claim_C9_amended (people : List Record) (q : Str) (hq : q ≠ [])
    (hplain : ∀ c ∈ q, ¬ c.isDigit ∧ c ≠ '+') :
    _normalize_phone q = ['+'] ∧
    find_by_phone people q =
      people.find? fun p =>
        decide (p.phone ≠ [] ∧ (∀ c ∈ p.phone, ¬ c.isDigit) ∧ p.phone.count '+' ≤ 1) := by
  have hq1 : _normalize_phone q = ['+'] := norm_plus q hq hplain
  refine ⟨hq1, ?_⟩
  unfold find_by_phone
  rw [if_neg hq]
  simp only [hq1]
  apply find?_pointwise
  intro p _
  rw [decide_eq_decide]
  rw [norm_eq_plus_iff, filter_phone_iff]

theorem claim_C9_amended_witness :
    ("-".toList ≠ [] ∧ (∀ c ∈ "-".toList, ¬ c.isDigit ∧ c ≠ '+')) ∧
    (_normalize_phone "-".toList = ['+'] ∧
      find_by_phone [c9Rec1, c9Rec2] "-".toList =
        [c9Rec1, c9Rec2].find? fun p =>
          decide (p.phone ≠ [] ∧ (∀ c ∈ p.phone, ¬ c.isDigit) ∧ p.phone.count '+' ≤ 1)) :=
  ⟨⟨by decide, by decide⟩,
    claim_C9_amended [c9Rec1, c9Rec2] "-".toList (by decide) (by decide)⟩

/-- Claim C9 counterexample: the query `"-"` is non-empty and digit-free,
the first record's stored phone `"++"` is non-empty and digit-free, yet
`find_by_phone` skips it (its normalized form is `"++"`, not `"+"`) and
returns the second record, whose stored phone is `"-"`. -/
theorem claim_C9_counterexample :
    ("-".toList ≠ [] ∧ (∀ c ∈ "-".toList, ¬ c.isDigit ∧ c ≠ '+')) ∧
    (c9Rec1.phone ≠ [] ∧ (∀ c ∈ c9Rec1.phone, ¬ c.isDigit)) ∧
    find_by_phone [c9Rec1, c9Rec2] "-".toList = some c9Rec2 ∧
    c9Rec2 ≠ c9Rec1 := by decide

/-!
## C4 — the TTL cache
-/

/-- Claim C4 (corrected): first `get()` fetches once and caches the parsed
rows with a fresh timestamp **provided the raw row set is non-empty**; a
`get()` within the TTL returns the cached sequence with zero fetches; a
`get()` after the TTL fetches once more; a failed fetch propagates the
error and caches nothing.  A successful fetch of an **empty** row set,
however, returns `[]` without caching (the early `return []` precedes the
cache write), so the next `get()` fetches again. -/
theorem claim_C4_amended :
    (∀ (now ttl : Nat) (vs : List (List Str)), vs ≠ [] →
      get_people_data none now ttl (.ok vs) =
        (.ok (vs.filterMap parseRow), some (vs.filterMap parseRow, now), 1)) ∧
    (∀ (d : List Record) (t now ttl : Nat) (fetch : Except Unit (List (List Str))),
      now < t + ttl →
      get_people_data (some (d, t)) now ttl fetch = (.ok d, some (d, t), 0)) ∧
    (∀ (d : List Record) (t now ttl : Nat) (vs : List (List Str)),
      ¬ now < t + ttl → vs ≠ [] →
      get_people_data (some (d, t)) now ttl (.ok vs) =
        (.ok (vs.filterMap parseRow), some (vs.filterMap parseRow, now), 1)) ∧
    (∀ (entry : Option (List Record × Nat)) (now ttl : Nat), cacheMiss entry now ttl →
      get_people_data entry now ttl (.error ()) = (.error (), entry, 1)) ∧
    (∀ (entry : Option (List Record × Nat)) (now ttl : Nat), cacheMiss entry now ttl →
      get_people_data entry now ttl (.ok []) = (.ok [], entry, 1)) := by
  refine ⟨?_, ?_, ?_, ?_, ?_⟩
  · intro now ttl vs hvs
    simp [get_people_data, hvs]
  · intro d t now ttl fetch h
    simp [get_people_data, h]
  · intro d t now ttl vs h hvs
    simp [get_people_data, h, hvs]
  · intro entry now ttl h
    cases entry with
    | none => simp [get_people_data]
    | some e =>
        obtain ⟨d, t⟩ := e
        simp only [cacheMiss] at h
        simp [get_people_data, h]
  · intro entry now ttl h
    cases entry with
    | none => simp [get_people_data]
    | some e =>
        obtain ⟨d, t⟩ := e
        simp only [cacheMiss] at h
        simp [get_people_data, h]

theorem claim_C4_amended_witness :
    (([wRow] : List (List Str)) ≠ [] ∧
      get_people_data none 0 5 (.ok [wRow]) =
        (.ok ([wRow].filterMap parseRow), some ([wRow].filterMap parseRow, 0), 1)) ∧
    ((1 < 0 + 5) ∧
      get_people_data (some ([], 0)) 1 5 (.ok [wRow]) = (.ok [], some ([], 0), 0)) ∧
    ((¬ 7 < 0 + 5) ∧ ([wRow] : List (List Str)) ≠ [] ∧
      get_people_data (some ([], 0)) 7 5 (.ok [wRow]) =
        (.ok ([wRow].filterMap parseRow), some ([wRow].filterMap parseRow, 7), 1)) ∧
    (cacheMiss none 0 5 ∧
      get_people_data none 0 5 (.error ()) = (.error (), none, 1)) ∧
    (cacheMiss (some ([], 0)) 7 5 ∧
      get_people_data (some ([], 0)) 7 5 (.ok []) = (.ok [], some ([], 0), 1)) :=
  ⟨⟨by decide, claim_C4_amended.1 0 5 [wRow] (by decide)⟩,
   ⟨by decide, claim_C4_amended.2.1 [] 0 1 5 (.ok [wRow]) (by decide)⟩,
   ⟨by decide, by decide, claim_C4_amended.2.2.1 [] 0 7 5 [wRow] (by decide) (by decide)⟩,
   ⟨by decide, claim_C4_amended.2.2.2.1 none 0 5 (by decide)⟩,
   ⟨by decide, claim_C4_amended.2.2.2.2 (some ([], 0)) 7 5 (by decide)⟩⟩

/-- Claim C4 counterexample: a successful fetch returning the empty row set
is **not** stored — the cache entry stays `none` instead of becoming
`some ([], 0)` — and the follow-up `get()` at time `1` (within the TTL of a
hypothetical fresh entry) performs another fetch instead of zero. -/
theorem claim_C4_counterexample :
    (get_people_data none 0 5 (.ok [])).2.1 = none ∧
    (get_people_data none 0 5 (.ok [])).2.1 ≠ some ([], 0) ∧
    (get_people_data ((get_people_data none 0 5 (.ok [])).2.1) 1 5 (.ok [])).2.2 = 1 := by
  decide

/-!
## C1, C2, C3, C7, C10 — the pipeline
-/

/-- Claim C1 (corrected): whenever a person is resolved **and the resolved
record's person_id is non-empty**, the final reference list contains a
`(People, person_id)` reference, regardless of what generation returned.
(With an empty person_id the `if facts.get("person_id")` guard skips the
injection.) -/
theorem claim_C1_amended (dl : Str) (people : List Record) (req : ChatRequest)
    (ex : Option Str) (raw : GenRaw) (p : Record)
    (hfind : find_person people (reqPhone req) (effName req ex) = some p)
    (hpid : p.person_id ≠ []) :
    (outcomeRefs (chat_endpoint dl people req ex raw)).any
      (fun r => r.source == peopleSource && r.person_id == some p.person_id) = true := by
  simp only [chat_endpoint, hfind, outcomeRefs, build_facts]
  rw [if_pos hpid]
  by_cases hany :
      (generate_response (build_facts p) (chatLocale dl req p) raw).references.any
        (fun r => r.source == peopleSource && r.person_id == some p.person_id) = true
  · simp only [build_facts] at hany
    rw [if_pos hany]
    exact hany
  · simp only [build_facts] at hany
    rw [if_neg hany]
    simp

theorem claim_C1_amended_witness :
    (find_person [c2Rec] (reqPhone c1Req) (effName c1Req none) = some c2Rec ∧
      c2Rec.person_id ≠ []) ∧
    (outcomeRefs (chat_endpoint "tr".toList [c2Rec] c1Req none c1Raw)).any
      (fun r => r.source == peopleSource && r.person_id == some c2Rec.person_id) = true :=
  ⟨⟨by decide, by decide⟩,
    claim_C1_amended "tr".toList [c2Rec] c1Req none c1Raw c2Rec (by decide) (by decide)⟩

/-- Claim C1 counterexample: the resolved record's person_id is empty and
generation succeeded with a single reference to another source; the final
response then contains **no** reference with source `"People"` and the
resolved (empty) person_id, although a person was resolved. -/
theorem claim_C1_counterexample :
    find_person [c1Rec] (reqPhone c1Req) (effName c1Req none) = some c1Rec ∧
    c1Rec.person_id = [] ∧
    (outcomeRefs (chat_endpoint "tr".toList [c1Rec] c1Req none c1Raw)).any
      (fun r => r.source == peopleSource && r.person_id == some c1Rec.person_id) = false := by
  decide

/-- Claim C2 (corrected): on the generation-success path with a non-empty
generated reference list, reconciliation performs **no deduplication**: the
generated references are kept exactly, in order, duplicates included, and a
`(People, person_id)` reference is appended at the end only when the
resolved person_id is non-empty and no such reference is present. -/
theorem claim_C2_amended (dl : Str) (people : List Record) (req : ChatRequest)
    (ex : Option Str) (d : GenData) (p : Record) (l : List Reference)
    (hfind : find_person people (reqPhone req) (effName req ex) = some p)
    (hrefs : d.references = some l) (hl : l ≠ []) :
    outcomeRefs (chat_endpoint dl people req ex (.ok d)) =
      if p.person_id ≠ [] ∧
          l.any (fun r => r.source == peopleSource && r.person_id == some p.person_id) = false
      then l ++ [⟨peopleSource, some p.person_id⟩]
      else l := by
  have hrf : refsFalsy (some l) = false := by
    cases l with
    | nil => exact absurd rfl hl
    | cons a t => rfl
  simp only [chat_endpoint, hfind, outcomeRefs, build_facts, generate_response,
    hrefs, hrf, Bool.false_eq_true, if_false, Option.getD_some]
  by_cases hpid : p.person_id = []
  · have hc1 : ¬(p.person_id ≠ []) := fun h => h hpid
    have hc2 : ¬(p.person_id ≠ [] ∧
        (l.any fun r => r.source == peopleSource && r.person_id == some p.person_id) = false) := by
      rintro ⟨h1, _⟩
      exact h1 hpid
    rw [if_neg hc1, if_neg hc2]
  · rw [if_pos hpid]
    by_cases hany :
        (l.any fun r => r.source == peopleSource && r.person_id == some p.person_id) = true
    · have hc3 : ¬(p.person_id ≠ [] ∧
          (l.any fun r => r.source == peopleSource && r.person_id == some p.person_id) = false) := by
        rintro ⟨_, h2⟩
        rw [hany] at h2
        cases h2
      rw [if_pos hany, if_neg hc3]
    · have hany' :
          (l.any fun r => r.source == peopleSource && r.person_id == some p.person_id) = false :=
        Bool.not_eq_true _ ▸ hany
      have hc4 : p.person_id ≠ [] ∧
          (l.any fun r => r.source == peopleSource && r.person_id == some p.person_id) = false :=
        ⟨hpid, hany'⟩
      rw [if_neg hany, if_pos hc4]

theorem claim_C2_amended_witness :
    (find_person [c2Rec] (reqPhone c1Req) (effName c1Req none) = some c2Rec ∧
      (match c2Raw with | .ok d => d.references | _ => none) =
        some [⟨peopleSource, some "p".toList⟩, ⟨peopleSource, some "p".toList⟩] ∧
      ([⟨peopleSource, some "p".toList⟩, ⟨peopleSource, some "p".toList⟩] :
        List Reference) ≠ []) ∧
    outcomeRefs (chat_endpoint "tr".toList [c2Rec] c1Req none c2Raw) =
      (if c2Rec.person_id ≠ [] ∧
          ([⟨peopleSource, some "p".toList⟩, ⟨peopleSource, some "p".toList⟩] :
            List Reference).any
            (fun r => r.source == peopleSource && r.person_id == some c2Rec.person_id) = false
       then [⟨peopleSource, some "p".toList⟩, ⟨peopleSource, some "p".toList⟩] ++
         [⟨peopleSource, some c2Rec.person_id⟩]
       else [⟨peopleSource, some "p".toList⟩, ⟨peopleSource, some "p".toList⟩]) :=
  ⟨⟨by decide, by decide, by decide⟩,
    claim_C2_amended "tr".toList [c2Rec] c1Req none
      ⟨"a".toList, "bilgi".toList, mkRat 1 1,
        some [⟨peopleSource, some "p".toList⟩, ⟨peopleSource, some "p".toList⟩], none⟩
      c2Rec [⟨peopleSource, some "p".toList⟩, ⟨peopleSource, some "p".toList⟩]
      (by decide) rfl (by decide)⟩

/-- Claim C2 counterexample: the generated answer repeats the same People
reference twice; the final response still contains it twice — reconciliation
does not deduplicate by `(source, person_id)`. -/
theorem claim_C2_counterexample :
    find_person [c2Rec] (reqPhone c1Req) (effName c1Req none) = some c2Rec ∧
    (outcomeRefs (chat_endpoint "tr".toList [c2Rec] c1Req none c2Raw)).count
      ⟨peopleSource, some "p".toList⟩ = 2 := by
  decide

/-- Claim C3 (corrected): when generation fails or returns no usable text
the pipeline returns the fallback answer — fixed apology text, intent
`"genel"` (the source's Turkish tag, not the spec's `"general"`), confidence
`0.0`, a single People reference when the resolved person's person_id is
non-empty (an empty reference list when it is empty — even though a person
was resolved), and metadata with `fallback = true` plus the locale used;
the failure is absorbed into a normal response, never a transport error. -/
theorem claim_C3_amended (dl : Str) (people : List Record) (req : ChatRequest)
    (ex : Option Str) (raw : GenRaw) (p : Record)
    (hfind : find_person people (reqPhone req) (effName req ex) = some p)
    (hraw : raw = GenRaw.fail ∨ raw = GenRaw.empty) :
    ∃ resp : ChatResponse,
      chat_endpoint dl people req ex raw = (.ok resp, 1) ∧
      resp.answer_text = apologyText ∧
      resp.intent = intentGenel ∧
      resp.confidence = 0 ∧
      resp.references =
        (if p.person_id ≠ [] then [⟨peopleSource, some p.person_id⟩] else []) ∧
      ∃ m : Meta, resp.meta = some m ∧ m.fallback = true ∧
        m.locale_used = some (chatLocale dl req p) := by
  have hgen : generate_response (build_facts p) (chatLocale dl req p) raw =
      _fallback (chatLocale dl req p) (some p.person_id) := by
    rcases hraw with h | h <;> subst h <;> rfl
  simp only [chat_endpoint, hfind, hgen, _fallback]
  simp only [build_facts]
  by_cases hpid : p.person_id = []
  · have ht : optTruthy (some p.person_id) = false := by
      rw [hpid]
      rfl
    have hc1 : ¬(p.person_id ≠ []) := fun h => h hpid
    simp only [ht, Bool.false_eq_true, if_false]
    rw [if_neg hc1]
    refine ⟨_, rfl, rfl, rfl, by simp, ?_, _, rfl, rfl, rfl⟩
    rw [if_neg hc1]
  · have hpid' : p.person_id ≠ [] := hpid
    have ht : optTruthy (some p.person_id) = true := (optTruthy_some_iff _).mpr hpid'
    simp only [ht, if_true]
    rw [if_pos hpid']
    have hany : ([(⟨peopleSource, some p.person_id⟩ : Reference)].any
        fun r => r.source == peopleSource && r.person_id == some p.person_id) = true := by
      simp
    rw [if_pos hany]
    refine ⟨_, rfl, rfl, rfl, by simp, ?_, _, rfl, rfl, rfl⟩
    rw [if_pos hpid']

theorem claim_C3_amended_witness :
    (find_person [c2Rec] (reqPhone c1Req) (effName c1Req none) = some c2Rec ∧
      (GenRaw.fail = GenRaw.fail ∨ GenRaw.fail = GenRaw.empty)) ∧
    (∃ resp : ChatResponse,
      chat_endpoint "tr".toList [c2Rec] c1Req none .fail = (.ok resp, 1) ∧
      resp.answer_text = apologyText ∧
      resp.intent = intentGenel ∧
      resp.confidence = 0 ∧
      resp.references =
        (if c2Rec.person_id ≠ [] then [⟨peopleSource, some c2Rec.person_id⟩] else []) ∧
      ∃ m : Meta, resp.meta = some m ∧ m.fallback = true ∧
        m.locale_used = some (chatLocale "tr".toList c1Req c2Rec)) :=
  ⟨⟨by decide, Or.inl rfl⟩,
    claim_C3_amended "tr".toList [c2Rec] c1Req none .fail c2Rec (by decide) (Or.inl rfl)⟩

/-- Claim C3 counterexample: with a resolved person whose person_id is
empty and a failing generation call, the pipeline's answer has intent
`"genel"` — not the claimed `"general"` — and an empty reference list even
though a person was resolved. -/
theorem claim_C3_counterexample :
    find_person [c1Rec] (reqPhone c1Req) (effName c1Req none) = some c1Rec ∧
    outcomeIntent (chat_endpoint "tr".toList [c1Rec] c1Req none .fail) ≠
      some "general".toList ∧
    outcomeIntent (chat_endpoint "tr".toList [c1Rec] c1Req none .fail) =
      some intentGenel ∧
    outcomeRefs (chat_endpoint "tr".toList [c1Rec] c1Req none .fail) = [] := by
  decide

/-- Claim C7: a resolution miss short-circuits to the fixed
prompt-for-identity response with confidence 0.3, whose wording depends on
whether a phone was supplied; the generation oracle is consulted zero times
and the result does not depend on it; the outcome is a normal response, not
an error. -/
theorem claim_C7_not_found (dl : Str) (people : List Record) (req : ChatRequest)
    (ex : Option Str) (raw : GenRaw)
    (hfind : find_person people (reqPhone req) (effName req ex) = none) :
    chat_endpoint dl people req ex raw =
      (.ok (create_not_found_response dl (reqPhone req) (effName req ex)), 0) ∧
    (create_not_found_response dl (reqPhone req) (effName req ex)).confidence = 3 / 10 ∧
    (create_not_found_response dl (reqPhone req) (effName req ex)).answer_text =
      (if optTruthy (reqPhone req) then notFoundPhoneMsg else notFoundNoPhoneMsg) ∧
    notFoundPhoneMsg ≠ notFoundNoPhoneMsg ∧
    ∀ raw' : GenRaw,
      chat_endpoint dl people req ex raw' = chat_endpoint dl people req ex raw := by
  refine ⟨?_, ?_, rfl, by decide, ?_⟩
  · simp only [chat_endpoint, hfind]
  · show mkRat 3 10 = 3 / 10
    rw [Rat.mkRat_eq_divInt, Rat.divInt_eq_div]
    norm_num
  · intro raw'
    simp only [chat_endpoint, hfind]

theorem claim_C7_not_found_witness :
    find_person [] (reqPhone c7Req) (effName c7Req none) = none ∧
    chat_endpoint "tr".toList [] c7Req none .fail =
      (.ok (create_not_found_response "tr".toList (reqPhone c7Req) (effName c7Req none)), 0) :=
  ⟨by decide, (claim_C7_not_found "tr".toList [] c7Req none .fail (by decide)).1⟩

/-- Claim C10: the `match` tag in the response metadata records which
identity inputs were supplied, not which matching method succeeded:
`"phone"` whenever a truthy phone came with the request, else `"name"` when
a truthy name was available (supplied or extracted), else `"none"`. -/
theorem claim_C10_match_tag (dl : Str) (people : List Record) (req : ChatRequest)
    (ex : Option Str) (raw : GenRaw) (p : Record)
    (hfind : find_person people (reqPhone req) (effName req ex) = some p) :
    outcomeMatchTag (chat_endpoint dl people req ex raw) =
      some (if optTruthy (reqPhone req) then "phone".toList
            else if optTruthy (effName req ex) then "name".toList
            else "none".toList) := by
  simp only [chat_endpoint, hfind, outcomeMatchTag]

theorem claim_C10_match_tag_witness :
    (find_person [c10Rec] (reqPhone c10Req) (effName c10Req none) = some c10Rec ∧
      find_by_phone [c10Rec] ((reqPhone c10Req).getD []) = none ∧
      optTruthy (reqPhone c10Req) = true) ∧
    outcomeMatchTag (chat_endpoint "tr".toList [c10Rec] c10Req none .fail) =
      some (if optTruthy (reqPhone c10Req) then "phone".toList
            else if optTruthy (effName c10Req none) then "name".toList
            else "none".toList) :=
  ⟨⟨by decide, by decide, by decide⟩,
    claim_C10_match_tag "tr".toList [c10Rec] c10Req none .fail c10Rec (by decide)⟩

/-- Claim C6: a supplied phone that matches takes strict priority — the
result is the first phone-matched record and the name is never consulted;
a normalized-phone match among the records guarantees a phone-match result;
and name matching runs exactly when no phone is supplied or the phone match
fails. -/
theorem claim_C6_phone_priority :
    (∀ (people : List Record) (ph : Str) (nm : Option Str) (r : Record),
        ph ≠ [] → find_by_phone people ph = some r →
        find_person people (some ph) nm = some r) ∧
    (∀ (people : List Record) (ph : Str), ph ≠ [] →
        (∃ q ∈ people, _normalize_phone q.phone = _normalize_phone ph) →
        ∃ r, find_by_phone people ph = some r ∧
          _normalize_phone r.phone = _normalize_phone ph) ∧
    (∀ (people : List Record) (ph nm : Option Str),
        (optTruthy ph = false ∨ find_by_phone people (ph.getD []) = none) →
        find_person people ph nm =
          (if optTruthy nm then find_by_name people (nm.getD []) else none)) := by
  refine ⟨?_, ?_, ?_⟩
  · intro people ph nm r hph hfound
    have ht : optTruthy (some ph) = true := (optTruthy_some_iff ph).mpr hph
    simp only [find_person, ht, if_true, Option.getD_some, hfound]
  · rintro people ph hph ⟨q, hq, hmatch⟩
    have hsome : (people.find? fun p =>
        decide (_normalize_phone p.phone = _normalize_phone ph)).isSome :=
      List.find?_isSome.mpr ⟨q, hq, by simp [hmatch]⟩
    obtain ⟨r, hr⟩ := Option.isSome_iff_exists.mp hsome
    refine ⟨r, ?_, by simpa using List.find?_some hr⟩
    unfold find_by_phone
    rw [if_neg hph]
    exact hr
  · intro people ph nm h
    rcases h with h | h
    · simp only [find_person, h, Bool.false_eq_true, if_false]
    · cases hopt : optTruthy ph
      · simp only [find_person, hopt, Bool.false_eq_true, if_false]
      · simp only [find_person, hopt, if_true, h]

theorem claim_C6_phone_priority_witness :
    ("1".toList ≠ [] ∧ find_by_phone [phRecA, nmRecB] "1".toList = some phRecA ∧
      find_by_name [phRecA, nmRecB] "bob".toList = some nmRecB ∧ phRecA ≠ nmRecB) ∧
    find_person [phRecA, nmRecB] (some "1".toList) (some "bob".toList) = some phRecA :=
  ⟨⟨by decide, by decide, by decide, by decide⟩,
    claim_C6_phone_priority.1 [phRecA, nmRecB] "1".toList (some "bob".toList) phRecA
      (by decide) (by decide)⟩

/-!
## C5 — find_by_name versus the spec's description
-/

theorem pyLower_eq_nil_iff (s : Str) : pyLower s = [] ↔ s = [] := by
  simp [pyLower]

theorem specRatio_nil_right (name : Str) (hn : name ≠ []) (hnf : trimFixed name) :
    specRatio name [] = 0 := by
  unfold specRatio
  have h1 : pyStrip (pyLower ([] : Str)) = [] := rfl
  rw [h1]
  apply ratio_nil_right
  rw [hnf]
  exact fun h => hn ((pyLower_eq_nil_iff name).mp h)

/-- The `_fuzzy_match` gate, seen through the spec-side ratio: it passes iff
the trimmed, lowercased ratio reaches the threshold (an empty stored name
never passes). -/
theorem gate_iff (name f : Str) (hn : name ≠ []) (hnf : trimFixed name) :
    (f ≠ [] ∧ _fuzzy_match name f defaultThreshold = true) ↔
      defaultThreshold ≤ specRatio name f := by
  constructor
  · rintro ⟨hf, hm⟩
    unfold _fuzzy_match at hm
    rw [if_neg (by simp [hn, hf])] at hm
    exact of_decide_eq_true hm
  · intro h
    have hf : f ≠ [] := by
      rintro rfl
      rw [specRatio_nil_right name hn hnf] at h
      exact absurd h (not_le.mpr defaultThreshold_pos)
    refine ⟨hf, ?_⟩
    unfold _fuzzy_match
    rw [if_neg (by simp [hn, hf])]
    exact decide_eq_true h

/-- Under trim-invariance the tracked (unstripped) ratio coincides with the
spec-side (stripped) ratio. -/
theorem tracked_eq (name f : Str) (hnf : trimFixed name) (hff : trimFixed f) :
    ratio (pyLower name) (pyLower f) = specRatio name f := by
  unfold specRatio
  rw [hnf, hff]

/-- Pure order-theoretic core of one loop iteration: the code accumulator
(gated candidates, sequential best-of) and the spec accumulator (max of the
two candidates, thresholded at the end) stay related — equal once the spec's
running best has reached the threshold, and the code side still at its
initial value below it. -/
theorem step_core {α : Type} (x : α) (F P θ : ℚ) (hθ : 0 < θ)
    (c s acc1 out sp : Option α × ℚ)
    (hacc1 : acc1 = if θ ≤ F then (if c.2 < F then (some x, F) else c) else c)
    (hout : out = if θ ≤ P then (if acc1.2 < P then (some x, P) else acc1) else acc1)
    (hsp : sp = if s.2 < max F P then (some x, max F P) else s)
    (h1 : s.2 < θ → c = (none, 0))
    (h2 : θ ≤ s.2 → c = s) :
    (sp.2 < θ → out = (none, 0)) ∧ (θ ≤ sp.2 → out = sp) := by
  by_cases hsm : s.2 < max F P
  · have hsp' : sp = (some x, max F P) := by rw [hsp, if_pos hsm]
    by_cases hmt : θ ≤ max F P
    · have hgoal : out = (some x, max F P) := by
        by_cases hs : s.2 < θ
        · have hc := h1 hs
          have hc2 : c.2 = 0 := by rw [hc]
          rcases le_total P F with hPF | hFP
          · have hmF : max F P = F := max_eq_left hPF
            have hθF : θ ≤ F := hmF ▸ hmt
            have hacc1' : acc1 = (some x, F) := by
              rw [hacc1, if_pos hθF,
                if_pos (show c.2 < F by rw [hc2]; exact lt_of_lt_of_le hθ hθF)]
            have hout' : out = (some x, F) := by
              rw [hout, hacc1']
              by_cases hPθ : θ ≤ P
              · rw [if_pos hPθ, if_neg (show ¬(some x, F).2 < P from not_lt.mpr hPF)]
              · rw [if_neg hPθ]
            rw [hout', hmF]
          · have hmP : max F P = P := max_eq_right hFP
            have hθP : θ ≤ P := hmP ▸ hmt
            have hout' : out = (some x, P) := by
              rw [hout]
              by_cases hθF : θ ≤ F
              · have hacc1' : acc1 = (some x, F) := by
                  rw [hacc1, if_pos hθF,
                    if_pos (show c.2 < F by rw [hc2]; exact lt_of_lt_of_le hθ hθF)]
                rw [hacc1', if_pos hθP]
                by_cases hFP' : F < P
                · rw [if_pos (show (some x, F).2 < P from hFP')]
                · have hFPeq : F = P := le_antisymm hFP (not_lt.mp hFP')
                  rw [if_neg (show ¬(some x, F).2 < P from hFP'), hFPeq]
              · have hacc1' : acc1 = c := by rw [hacc1, if_neg hθF]
                rw [hacc1', if_pos hθP,
                  if_pos (show c.2 < P by rw [hc2]; exact lt_of_lt_of_le hθ hθP)]
            rw [hout', hmP]
        · have hs' : θ ≤ s.2 := not_lt.mp hs
          have hc := h2 hs'
          rcases le_total P F with hPF | hFP
          · have hmF : max F P = F := max_eq_left hPF
            have hθF : θ ≤ F := hmF ▸ hmt
            have hsF : s.2 < F := hmF ▸ hsm
            have hacc1' : acc1 = (some x, F) := by
              rw [hacc1, if_pos hθF, if_pos (show c.2 < F by rw [hc]; exact hsF)]
            have hout' : out = (some x, F) := by
              rw [hout, hacc1']
              by_cases hPθ : θ ≤ P
              · rw [if_pos hPθ, if_neg (show ¬(some x, F).2 < P from not_lt.mpr hPF)]
              · rw [if_neg hPθ]
            rw [hout', hmF]
          · have hmP : max F P = P := max_eq_right hFP
            have hθP : θ ≤ P := hmP ▸ hmt
            have hsP : s.2 < P := hmP ▸ hsm
            have hout' : out = (some x, P) := by
              rw [hout]
              by_cases hθF : θ ≤ F
              · by_cases hcF : c.2 < F
                · have hacc1' : acc1 = (some x, F) := by
                    rw [hacc1, if_pos hθF, if_pos hcF]
                  rw [hacc1', if_pos hθP]
                  by_cases hFP' : F < P
                  · rw [if_pos (show (some x, F).2 < P from hFP')]
                  · have hFPeq : F = P := le_antisymm hFP (not_lt.mp hFP')
                    rw [if_neg (show ¬(some x, F).2 < P from hFP'), hFPeq]
                · have hacc1' : acc1 = c := by rw [hacc1, if_pos hθF, if_neg hcF]
                  rw [hacc1', if_pos hθP, if_pos (show c.2 < P by rw [hc]; exact hsP)]
              · have hacc1' : acc1 = c := by rw [hacc1, if_neg hθF]
                rw [hacc1', if_pos hθP, if_pos (show c.2 < P by rw [hc]; exact hsP)]
            rw [hout', hmP]
      constructor
      · intro hlt
        rw [hsp'] at hlt
        have hlt' : max F P < θ := hlt
        exact absurd (lt_of_le_of_lt hmt hlt') (lt_irrefl θ)
      · intro _
        rw [hgoal, hsp']
    · have hm : max F P < θ := not_le.mp hmt
      have hF : ¬ θ ≤ F :=
        fun h => absurd (lt_of_le_of_lt (le_trans h (le_max_left F P)) hm) (lt_irrefl θ)
      have hP : ¬ θ ≤ P :=
        fun h => absurd (lt_of_le_of_lt (le_trans h (le_max_right F P)) hm) (lt_irrefl θ)
      have hout' : out = c := by rw [hout, if_neg hP, hacc1, if_neg hF]
      have hs : s.2 < θ := lt_trans hsm hm
      constructor
      · intro _
        rw [hout', h1 hs]
      · intro hge
        rw [hsp'] at hge
        have hge' : θ ≤ max F P := hge
        exact absurd (lt_of_le_of_lt hge' hm) (lt_irrefl θ)
  · have hms : max F P ≤ s.2 := not_lt.mp hsm
    have hsp' : sp = s := by rw [hsp, if_neg hsm]
    by_cases hs : s.2 < θ
    · have hc := h1 hs
      have hF : ¬ θ ≤ F := fun h =>
        absurd (lt_of_le_of_lt (le_trans h (le_trans (le_max_left F P) hms)) hs) (lt_irrefl θ)
      have hP : ¬ θ ≤ P := fun h =>
        absurd (lt_of_le_of_lt (le_trans h (le_trans (le_max_right F P) hms)) hs) (lt_irrefl θ)
      have hout' : out = c := by rw [hout, if_neg hP, hacc1, if_neg hF]
      constructor
      · intro _
        rw [hout', hc]
      · intro hge
        rw [hsp'] at hge
        exact absurd (lt_of_le_of_lt hge hs) (lt_irrefl θ)
    · have hs' : θ ≤ s.2 := not_lt.mp hs
      have hc := h2 hs'
      have hnF : ¬ c.2 < F := by
        rw [hc]
        exact not_lt.mpr (le_trans (le_max_left F P) hms)
      have hnP : ¬ c.2 < P := by
        rw [hc]
        exact not_lt.mpr (le_trans (le_max_right F P) hms)
      have hacc1' : acc1 = c := by
        rw [hacc1]
        by_cases hθF : θ ≤ F
        · rw [if_pos hθF, if_neg hnF]
        · rw [if_neg hθF]
      have hout' : out = c := by
        rw [hout, hacc1']
        by_cases hθP : θ ≤ P
        · rw [if_pos hθP, if_neg hnP]
        · rw [if_neg hθP]
      constructor
      · intro hlt
        rw [hsp'] at hlt
        exact absurd (lt_of_le_of_lt hs' hlt) (lt_irrefl θ)
      · intro _
        rw [hout', hsp', hc]

/-- One `find_by_name` iteration preserves the accumulator relation with the
spec-side iteration (under trim-invariance of the involved names). -/
theorem step_rel (name : Str) (hn : name ≠ []) (hnf : trimFixed name) (p : Record)
    (hfull : trimFixed p.full_name) (hpref : trimFixed p.preferred_name)
    (c s : Option Record × ℚ)
    (h1 : s.2 < defaultThreshold → c = (none, mkRat 0 1))
    (h2 : defaultThreshold ≤ s.2 → c = s) :
    ((specStep name s p).2 < defaultThreshold → fbnStep name c p = (none, mkRat 0 1)) ∧
    (defaultThreshold ≤ (specStep name s p).2 → fbnStep name c p = specStep name s p) := by
  have gf := gate_iff name p.full_name hn hnf
  have gp := gate_iff name p.preferred_name hn hnf
  have tf := tracked_eq name p.full_name hnf hfull
  have tp := tracked_eq name p.preferred_name hnf hpref
  have h1' : s.2 < defaultThreshold → c = (none, 0) := by
    intro h
    rw [h1 h, mkRat_zero_one]
  unfold fbnStep specStep
  rw [mkRat_zero_one]
  simp only [gf, gp, tf, tp]
  exact step_core p (specRatio name p.full_name) (specRatio name p.preferred_name)
    defaultThreshold defaultThreshold_pos c s _ _ _ rfl rfl rfl h1' h2

theorem aux_rel (name : Str) (hn : name ≠ []) (hnf : trimFixed name) :
    ∀ people : List Record,
      (∀ p ∈ people, trimFixed p.full_name ∧ trimFixed p.preferred_name) →
      ∀ c s : Option Record × ℚ,
        (s.2 < defaultThreshold → c = (none, mkRat 0 1)) →
        (defaultThreshold ≤ s.2 → c = s) →
        ((specAux name people s).2 < defaultThreshold →
          fbnAux name people c = (none, mkRat 0 1)) ∧
        (defaultThreshold ≤ (specAux name people s).2 →
          fbnAux name people c = specAux name people s) := by
  intro people
  induction people with
  | nil =>
      intro _ c s h1 h2
      exact ⟨h1, h2⟩
  | cons p rest ih =>
      intro hrecs c s h1 h2
      have hp := hrecs p (List.mem_cons_self p rest)
      have hrest : ∀ q ∈ rest, trimFixed q.full_name ∧ trimFixed q.preferred_name :=
        fun q hq => hrecs q (List.mem_cons_of_mem p hq)
      have hstep := step_rel name hn hnf p hp.1 hp.2 c s h1 h2
      exact ih hrest (fbnStep name c p) (specStep name s p) hstep.1 hstep.2

/-- Claim C5 (corrected): the claimed description of `find_by_name` — per
record the better of the two ratios, global maximum with first-seen
tie-break, returned iff ≥ 0.85 — is accurate **provided** the raw name is
non-empty and neither it nor any stored name changes under trimming after
case folding.  (In general the source gates candidates by the trimmed ratio
but ranks them by the untrimmed one, and the two disagree on strings with
leading or trailing whitespace — see the counterexample.) -/
theorem claim_C5_amended (people : List Record) (name : Str)
    (hn : name ≠ []) (hnf : trimFixed name)
    (hrecs : ∀ p ∈ people, trimFixed p.full_name ∧ trimFixed p.preferred_name) :
    find_by_name people name = specFindByName people name := by
  obtain ⟨H1, H2⟩ := aux_rel name hn hnf people hrecs (none, mkRat 0 1) (none, mkRat 0 1)
    (fun _ => rfl) (fun _ => rfl)
  unfold find_by_name
  rw [if_neg hn]
  show (fbnAux name people (none, mkRat 0 1)).1 =
    if defaultThreshold ≤ (specAux name people (none, mkRat 0 1)).2 then
      (specAux name people (none, mkRat 0 1)).1
    else none
  by_cases hacc : defaultThreshold ≤ (specAux name people (none, mkRat 0 1)).2
  · rw [if_pos hacc, H2 hacc]
  · rw [if_neg hacc, H1 (not_le.mp hacc)]

theorem claim_C5_amended_witness :
    ("ali".toList ≠ [] ∧ trimFixed "ali".toList ∧
      (∀ p ∈ [wRecAli], trimFixed p.full_name ∧ trimFixed p.preferred_name)) ∧
    find_by_name [wRecAli] "ali".toList = specFindByName [wRecAli] "ali".toList :=
  ⟨⟨by decide, by decide, by decide⟩,
    claim_C5_amended [wRecAli] "ali".toList (by decide) (by decide) (by decide)⟩

set_option maxRecDepth 1000000 in
/-- Claim C5 counterexample: with raw name `"abcd "` (trailing space),
record A stores `"abcd"` and record B stores `"abcd "`.  Both spec-side
(trimmed) ratios are 1.0, so the claim's first-seen tie-break picks A; the
code ranks by the untrimmed ratio (A scores 8/9, B scores 1.0) and returns
B instead. -/
theorem claim_C5_counterexample :
    find_by_name [ceRecA, ceRecB] "abcd ".toList = some ceRecB ∧
    specFindByName [ceRecA, ceRecB] "abcd ".toList = some ceRecA ∧
    ceRecA ≠ ceRecB := by decide

/-!
## Faithfulness of the fueled matching-block sum
-/

theorem runLen_le_left (a b : Str) : runLen a b ≤ a.length := by
  induction a generalizing b with
  | nil => cases b <;> simp [runLen]
  | cons x xs ih =>
      cases b with
      | nil => simp [runLen]
      | cons y ys =>
          by_cases hxy : x = y
          · simpa [runLen, hxy] using ih ys
          · simp [runLen, hxy]

theorem flm_bound (a b : Str) : (flm a b).2.2 + (flm a b).1 ≤ a.length := by
  unfold flm
  apply List.foldlRecOn (motive := fun t : Nat × Nat × Nat => t.2.2 + t.1 ≤ a.length)
  · simp
  · intro t ht i hi
    apply List.foldlRecOn (motive := fun t : Nat × Nat × Nat => t.2.2 + t.1 ≤ a.length)
    · exact ht
    · intro t' ht' j _
      by_cases hk : t'.2.2 < runLen (a.drop i) (b.drop j)
      · simp only [if_pos hk]
        have h1 : runLen (a.drop i) (b.drop j) ≤ a.length - i :=
          le_trans (runLen_le_left _ _) (le_of_eq (List.length_drop i a))
        have h2 : i < a.length := List.mem_range.mp hi
        simpa using by omega
      · simpa only [if_neg hk] using ht'

/-- The fuel of `msumF` is irrelevant as soon as it exceeds the length of
the first string; in particular `msum` computes the true matching-block
recursion. -/
theorem msumF_fuel : ∀ (n f : Nat) (a b : Str), a.length < f → a.length ≤ n →
    msumF f a b = msumF (a.length + 1) a b := by
  intro n
  induction n with
  | zero =>
      intro f a b hf hn
      have ha : a = [] := List.length_eq_zero.mp (Nat.le_zero.mp hn)
      subst ha
      cases f with
      | zero => omega
      | succ g =>
          have hflm : flm [] b = (0, 0, 0) := by
            unfold flm
            simp
          simp [msumF, hflm]
  | succ n ih =>
      intro f a b hf hn
      cases f with
      | zero => omega
      | succ g =>
          show msumF (g + 1) a b = msumF (a.length + 1) a b
          by_cases hk : (flm a b).2.2 = 0
          · simp [msumF, hk]
          · have hb := flm_bound a b
            have hk1 : 1 ≤ (flm a b).2.2 := Nat.one_le_iff_ne_zero.mpr hk
            have hg : a.length ≤ g := Nat.lt_succ_iff.mp hf
            have hT : (a.take (flm a b).1).length < a.length := by
              rw [List.length_take]
              omega
            have hD : (a.drop ((flm a b).1 + (flm a b).2.2)).length < a.length := by
              rw [List.length_drop]
              omega
            have e1 := ih g (a.take (flm a b).1) (b.take (flm a b).2.1)
              (by omega) (by omega)
            have e2 := ih a.length (a.take (flm a b).1) (b.take (flm a b).2.1)
              (by omega) (by omega)
            have e3 := ih g (a.drop ((flm a b).1 + (flm a b).2.2))
              (b.drop ((flm a b).2.1 + (flm a b).2.2)) (by omega) (by omega)
            have e4 := ih a.length (a.drop ((flm a b).1 + (flm a b).2.2))
              (b.drop ((flm a b).2.1 + (flm a b).2.2)) (by omega) (by omega)
            simp only [msumF]
            rw [if_neg hk, if_neg hk, e1, e2, e3, e4]

theorem msum_eq_of_fuel (f : Nat) (a b : Str) (hf : a.length < f) :
    msumF f a b = msum a b :=
  msumF_fuel a.length f a b hf le_rfl

set_option maxRecDepth 1000000 in
/-- Spot checks of the `SequenceMatcher` embedding against difflib:
`ratio("abcd ", "abcd") = 8/9`, `ratio("abab", "bababa") = 8/10`,
`ratio("xaybz", "axbyc") = 4/10`, `ratio("", "x") = 0`,
`ratio("", "") = 1`. -/
theorem sanity_ratio_vectors :
    ratio "abcd ".toList "abcd".toList = mkRat 8 9 ∧
    ratio "abab".toList "bababa".toList = mkRat 8 10 ∧
    ratio "xaybz".toList "axbyc".toList = mkRat 4 10 ∧
    ratio [] "x".toList = mkRat 0 1 ∧
    ratio [] [] = mkRat 1 1 := by decide
